import Mathlib

/-!
Shallow embedding of the `ode5bmp` BMP codec (files `src/helpers.rs`,
`src/models.rs`, `src/repr.rs`).

Modelling conventions:
* `usize` values are `Nat`; every explicit Rust `as u32` cast is `% 2^32`.
* Byte sequences (files, `Vec<u8>`) are `List Nat`; in a well-formed input
  every entry is `< 256`, and the functions below nowhere rely on that.
* Rust panics (failed `expect`, out-of-bounds `Vec` indexing) are modelled by
  `Option`/`Except` failure values, so a `none`/`.error` result means the
  Rust call panics and returns no image. `u32` index arithmetic wraps
  (release-profile overflow semantics), written as explicit `% 2^32`.
* `f64` arithmetic in the decoder is modelled exactly: IEEE-754 binary64
  round-to-nearest-even arithmetic on positive rationals in the normal range,
  implemented below on `Nat` numerator/denominator pairs.
-/

/-! ## helpers.rs -/

/-- Model of `calculate_row_length` (src/helpers.rs): `width * 3` rounded up
to the next multiple of 4. -/
def calculate_row_length (width : Nat) : Nat :=
  let row_length := width * 3
  let padding := (4 - row_length % 4) % 4
  row_length + padding

/-- Model of `calculate_image_size` (src/helpers.rs). -/
def calculate_image_size (width height : Nat) : Nat :=
  calculate_row_length width * height

/-! ## models.rs: BMPixel and Bmp -/

/-- Model of `BMPixel::red` (src/models.rs): `((p & 0xff_0000) >> 16) as u8`,
which on `Nat` equals the bits 16..23 of `p`. -/
def BMPixel.red (p : Nat) : Nat := p / 65536 % 256

/-- Model of `BMPixel::green`: `((p & 0x00_ff00) >> 8) as u8`, bits 8..15. -/
def BMPixel.green (p : Nat) : Nat := p / 256 % 256

/-- Model of `BMPixel::blue`: `(p & 0x00_00ff) as u8`, bits 0..7. -/
def BMPixel.blue (p : Nat) : Nat := p % 256

/-- Model of the `Bmp` struct (src/models.rs): width, height and the flat
row-major pixel vector (each pixel a packed `u32` value). -/
structure Bmp where
  width : Nat
  height : Nat
  pixels : List Nat
  deriving DecidableEq

/-- Model of `Bmp::new`: a `width*height` vector of empty (zero) pixels. -/
def Bmp.new (width height : Nat) : Bmp :=
  { width := width, height := height, pixels := List.replicate (width * height) 0 }

/-- Model of `Bmp::set_pixel`: `self.pixels[y * self.width + x] = pixel`.
`Vec` indexing panics (here: `none`) iff the flat index is out of range; there
is no check of `x` against `width` or `y` against `height`. -/
def Bmp.set_pixel (b : Bmp) (x y pixel : Nat) : Option Bmp :=
  if y * b.width + x < b.pixels.length then
    some { b with pixels := b.pixels.set (y * b.width + x) pixel }
  else
    none

/-! ## repr.rs: headers -/

/-- Little-endian bytes of a `u16` field value. -/
def u16ToLe (n : Nat) : List Nat := [n % 256, n / 256 % 256]

/-- Little-endian bytes of a `u32` field value. -/
def u32ToLe (n : Nat) : List Nat :=
  [n % 256, n / 256 % 256, n / 65536 % 256, n / 16777216 % 256]

/-- Little-endian `u16` read at offset `i` of a byte list (as in
`u16::from_le_bytes` applied to `bytes[i..i+2]`). -/
def readU16 (bs : List Nat) (i : Nat) : Nat :=
  bs.getD i 0 + bs.getD (i + 1) 0 * 256

/-- Little-endian `u32` read at offset `i` of a byte list (as in
`u32::from_le_bytes` applied to `bytes[i..i+4]`). -/
def readU32 (bs : List Nat) (i : Nat) : Nat :=
  bs.getD i 0 + bs.getD (i + 1) 0 * 256 + bs.getD (i + 2) 0 * 65536
    + bs.getD (i + 3) 0 * 16777216

/-- Model of the packed `FileHeader` struct (src/repr.rs); 14 bytes on disk. -/
structure FileHeader where
  bfType : Nat × Nat
  bfSize : Nat
  bfReserved1 : Nat
  bfReserved2 : Nat
  bfOffBits : Nat
  deriving DecidableEq

/-- Model of `FileHeader::new`. -/
def FileHeader.new (bfSize : Nat) : FileHeader :=
  { bfType := (0x42, 0x4d), bfSize := bfSize, bfReserved1 := 0,
    bfReserved2 := 0, bfOffBits := 54 }

/-- Model of `FileHeader::to_bytes`. -/
def FileHeader.to_bytes (h : FileHeader) : List Nat :=
  [h.bfType.1, h.bfType.2] ++ u32ToLe h.bfSize ++ u16ToLe h.bfReserved1
    ++ u16ToLe h.bfReserved2 ++ u32ToLe h.bfOffBits

/-- Model of the packed `InfoHeader` struct (src/repr.rs); 40 bytes on disk. -/
structure InfoHeader where
  biSize : Nat
  biWidth : Nat
  biHeight : Nat
  biPlanes : Nat
  biBitCount : Nat
  biCompression : Nat
  biSizeImage : Nat
  biXPelsPerMeter : Nat
  biYPelsPerMeter : Nat
  biClrUsed : Nat
  biClrImportant : Nat
  deriving DecidableEq

/-- Model of `InfoHeader::default` (`biSize` is `size_of::<InfoHeader>() = 40`). -/
def InfoHeader.default : InfoHeader :=
  { biSize := 40, biWidth := 0, biHeight := 0, biPlanes := 1, biBitCount := 24,
    biCompression := 0, biSizeImage := 0, biXPelsPerMeter := 0,
    biYPelsPerMeter := 0, biClrUsed := 0, biClrImportant := 0 }

/-- Model of `InfoHeader::to_bytes`. -/
def InfoHeader.to_bytes (h : InfoHeader) : List Nat :=
  u32ToLe h.biSize ++ u32ToLe h.biWidth ++ u32ToLe h.biHeight
    ++ u16ToLe h.biPlanes ++ u16ToLe h.biBitCount ++ u32ToLe h.biCompression
    ++ u32ToLe h.biSizeImage ++ u32ToLe h.biXPelsPerMeter
    ++ u32ToLe h.biYPelsPerMeter ++ u32ToLe h.biClrUsed
    ++ u32ToLe h.biClrImportant

/-! ## repr.rs: Ode5Bmp (encode path) -/

/-- Model of the `Ode5Bmp` struct (src/repr.rs). -/
structure Ode5Bmp where
  file_header : FileHeader
  info_header : InfoHeader
  data : List Nat
  deriving DecidableEq

/-- Model of `Ode5Bmp::default`. -/
def Ode5Bmp.default : Ode5Bmp :=
  { file_header := FileHeader.new 0, info_header := InfoHeader.default,
    data := [] }

/-- Model of `Ode5Bmp::with_dimensions`: sets `bfSize`, `biWidth`, `biHeight`
and `biSizeImage` (each an explicit `as u32` cast in the source, hence
`% 2^32`), and resizes `data` to `bi_size_img` zero-filled bytes
(`Vec::resize` truncates or extends with the fill value). -/
def Ode5Bmp.with_dimensions (o : Ode5Bmp) (width height : Nat) : Ode5Bmp :=
  let bi_size_img := calculate_image_size width height
  let file_size := 14 + 40 + bi_size_img
  { o with
    file_header := { o.file_header with bfSize := file_size % 2 ^ 32 }
    info_header := { o.info_header with
      biWidth := width % 2 ^ 32
      biHeight := height % 2 ^ 32
      biSizeImage := bi_size_img % 2 ^ 32 }
    data := o.data.take bi_size_img
      ++ List.replicate (bi_size_img - o.data.length) 0 }

/-- One iteration of the inner loop body of `Ode5Bmp::with_pixels`: writes the
blue, green, red bytes of pixel `(x, y)` at `data` offset
`(y * row_length as u32 + x * 3) as usize`. The source performs this index
arithmetic in `u32` (`row_length as u32` truncates, the products and sums
wrap), modelled by the explicit `% 2^32`; `none` models the panic when either
the `pixels` index or a `data` index is out of bounds. -/
def writeCell (pixels : List Nat) (w rl y x : Nat) (d : List Nat) :
    Option (List Nat) :=
  let index := (y * (rl % 2 ^ 32) + x * 3) % 2 ^ 32
  let pi := (y * w + x) % 2 ^ 32
  if pi < pixels.length ∧ index + 2 < d.length then
    some (((d.set index (BMPixel.blue (pixels.getD pi 0))).set (index + 1)
      (BMPixel.green (pixels.getD pi 0))).set (index + 2)
      (BMPixel.red (pixels.getD pi 0)))
  else
    none

/-- Columns `0..n` of row `y` of the `with_pixels` loop, applied in ascending
`x` order as in the source's `for x in 0..biWidth`. -/
def writeRowCells (pixels : List Nat) (w rl y : Nat) (d : List Nat) :
    Nat → Option (List Nat)
  | 0 => some d
  | n + 1 => do
    let d' ← writeRowCells pixels w rl y d n
    writeCell pixels w rl y n d'

/-- Rows `n-1, n-2, ..., 0` of the `with_pixels` loop, applied in that order
as in the source's `for y in (0..biHeight).rev()`. -/
def writeRows (pixels : List Nat) (w rl : Nat) :
    Nat → List Nat → Option (List Nat)
  | 0, d => some d
  | n + 1, d => do
    let d' ← writeRowCells pixels w rl n d w
    writeRows pixels w rl n d'

/-- Model of `Ode5Bmp::with_pixels` (src/repr.rs): the doubly nested loop over
`(0..biHeight).rev()` and `0..biWidth` writing BGR triples into `data` at row
stride `calculate_row_length biWidth`. -/
def Ode5Bmp.with_pixels (o : Ode5Bmp) (pixels : List Nat) : Option Ode5Bmp :=
  let rl := calculate_row_length o.info_header.biWidth
  (writeRows pixels o.info_header.biWidth rl o.info_header.biHeight o.data).map
    fun d => { o with data := d }

/-- Model of `Ode5Bmp::new`: `default().with_dimensions(w, h).with_pixels(pixels)`. -/
def Ode5Bmp.new (bmp : Bmp) : Option Ode5Bmp :=
  (Ode5Bmp.default.with_dimensions bmp.width bmp.height).with_pixels bmp.pixels

/-- Model of `Ode5Bmp::to_bytes`: file header bytes, then info header bytes,
then the pixel-data block. -/
def Ode5Bmp.to_bytes (o : Ode5Bmp) : List Nat :=
  o.file_header.to_bytes ++ o.info_header.to_bytes ++ o.data

/-- The byte sequence written by `Bmp::write_to_file` (src/models.rs):
`Ode5Bmp::new(self).to_bytes()`; `none` models an encode-path panic. -/
def encodeBytes (b : Bmp) : Option (List Nat) :=
  (Ode5Bmp.new b).map Ode5Bmp.to_bytes

/-! ## IEEE-754 binary64 model for the decode path's row stride

`Bmp::read_to_bmp` computes `(width as f64 / (8.0 / 24_f64)).ceil() as usize`.
All values involved are positive, exactly representable or produced by a
single correctly rounded division, and lie well inside the normal range of
binary64, so the computation is modelled exactly: a finite positive double is
a pair `(m, e)` with value `m * 2^e`, and each division rounds its exact
rational quotient to 53 significant bits with round-to-nearest, ties-to-even.
-/

/-- Number of binary digits of `n` (0 for 0), via an explicit fuel so that the
recursion is structural and kernel-reducible. -/
def bitsFuel : Nat → Nat → Nat
  | 0, _ => 0
  | fuel + 1, n => if n = 0 then 0 else bitsFuel fuel (n / 2) + 1

/-- Bit length of a natural number (`natBits 0 = 0`, `natBits 45 = 6`). -/
def natBits (n : Nat) : Nat := bitsFuel n n

/-- Floor of the base-2 logarithm of the positive fraction `a / b`. -/
def fracLog2 (a b : Nat) : Int :=
  let la := natBits a
  let lb := natBits b
  if b * 2 ^ la ≤ a * 2 ^ lb then (la : Int) - lb else (la : Int) - lb - 1

/-- Round the fraction `a / b` to the nearest integer, ties to even. -/
def rheNat (a b : Nat) : Nat :=
  let q := a / b
  let r := a % b
  if 2 * r < b then q
  else if b < 2 * r then q + 1
  else if q % 2 = 0 then q else q + 1

/-- Round the positive fraction `a / b` to the nearest binary64 value
`(m, e)` (value `m * 2^e`, 53 significant bits, ties to even). -/
def roundToDouble (a b : Nat) : Nat × Int :=
  let s : Int := fracLog2 a b - 52
  let m := if s ≤ 0 then rheNat (a * 2 ^ (-s).toNat) b
           else rheNat a (b * 2 ^ s.toNat)
  (m, s)

/-- Exact ceiling of the value of a positive double `(m, e)`, as a `Nat`. -/
def ceilDouble (p : Nat × Int) : Nat :=
  if 0 ≤ p.2 then p.1 * 2 ^ p.2.toNat
  else (p.1 + 2 ^ (-p.2).toNat - 1) / 2 ^ (-p.2).toNat

/-- Model of the decode path's `bytes_per_row` computation
`(width as f64 / (8.0 / 24_f64)).ceil() as usize` (src/models.rs line 106):
first `8.0 / 24.0` is rounded to a double `d`, then `width / d` is rounded to
a double, then its exact ceiling is taken. -/
def decodeBytesPerRow (width : Nat) : Nat :=
  if width = 0 then 0
  else
    let d := roundToDouble 8 24
    let q := if d.2 ≤ 0 then roundToDouble (width * 2 ^ (-d.2).toNat) d.1
             else roundToDouble width (d.1 * 2 ^ d.2.toNat)
    ceilDouble q

/-! ## models.rs: decode path (`Bmp::read_to_bmp`)

The input is the file's byte sequence. Each failed `expect` or `panic!` in the
source is a distinct `DecodeError` value; `read_exact` fails iff fewer bytes
remain than requested, and seeking past the end of the file is allowed (a
subsequent non-empty read then fails).
-/

/-- The decode failure modes of `Bmp::read_to_bmp`, one per panic site:
signature mismatch, unsupported bit depth or compression, a failed
`read_exact`, and an out-of-bounds `data[...]` index in the pixel loop. -/
inductive DecodeError where
  | formatError
  | unsupportedFormat
  | truncatedInput
  | indexOutOfBounds
  deriving DecidableEq

/-- One iteration of the decode pixel loop: read blue, green, red at `data`
offset `y * bpr + x * 3` and pack them as `(r << 16) | (g << 8) | b` (the
three summands occupy disjoint bit ranges for byte values, so the bitwise or
is addition). `none` models the index-out-of-bounds panic. -/
def pixelAt (data : List Nat) (bpr y x : Nat) : Option Nat :=
  let data_index := y * bpr + x * 3
  if data_index + 2 < data.length then
    some (data.getD (data_index + 2) 0 * 65536
      + data.getD (data_index + 1) 0 * 256 + data.getD data_index 0)
  else
    none

/-- Pixels of columns `0..n` of stored row `y`, in ascending `x` order. -/
def rowPixels (data : List Nat) (bpr y : Nat) : Nat → Option (List Nat)
  | 0 => some []
  | n + 1 => do
    let l ← rowPixels data bpr y n
    let p ← pixelAt data bpr y n
    some (l ++ [p])

/-- The flat pixel list pushed by the decode loop for stored rows `0..n`
(each row contributing `w` pixels), in the source's push order. -/
def decodePixels (data : List Nat) (bpr w : Nat) : Nat → Option (List Nat)
  | 0 => some []
  | n + 1 => do
    let l ← decodePixels data bpr w n
    let row ← rowPixels data bpr n w
    some (l ++ row)

/-- Model of `Bmp::read_to_bmp` (src/models.rs) on the file's byte sequence:
read and validate the two headers, seek to `bfOffBits`, read `biSizeImage`
bytes of pixel data, then decode the pixel grid row by row. -/
def decode (bs : List Nat) : Except DecodeError Bmp :=
  if bs.length < 14 then .error .truncatedInput
  else if bs.getD 0 0 ≠ 0x42 ∨ bs.getD 1 0 ≠ 0x4D then .error .formatError
  else if bs.length < 54 then .error .truncatedInput
  else if readU16 bs 28 ≠ 24 then .error .unsupportedFormat
  else if readU32 bs 30 ≠ 0 then .error .unsupportedFormat
  else
    let width := readU32 bs 18
    let height := readU32 bs 22
    let offBits := readU32 bs 10
    let sizeImage := readU32 bs 34
    if ¬ sizeImage ≤ bs.length - offBits then .error .truncatedInput
    else
      let data := (bs.drop offBits).take sizeImage
      match decodePixels data (decodeBytesPerRow width) width height with
      | some ps => .ok { width := width, height := height, pixels := ps }
      | none => .error .indexOutOfBounds

instance : DecidableEq (Except DecodeError Bmp) := fun
  | .ok a, .ok b =>
    if h : a = b then .isTrue (by rw [h]) else .isFalse (by simp [h])
  | .ok _, .error _ => .isFalse (by simp)
  | .error _, .ok _ => .isFalse (by simp)
  | .error a, .error b =>
    if h : a = b then .isTrue (by rw [h]) else .isFalse (by simp [h])

/-- The header bytes of a decode input that `Bmp::read_to_bmp` never reads:
the file header's `bfSize` (2..5) and two reserved fields (6..9), and the
info header's `biSize` (14..17), `biPlanes` (26..27), resolution and palette
fields (38..53). -/
def deadHeaderByte (i : Nat) : Prop :=
  (2 ≤ i ∧ i ≤ 9) ∨ (14 ≤ i ∧ i ≤ 17) ∨ i = 26 ∨ i = 27 ∨ (38 ≤ i ∧ i ≤ 53)

instance : DecidablePred deadHeaderByte := fun i => by
  unfold deadHeaderByte; infer_instance

/-! ## Concrete inputs used by the claim theorems -/

/-- The 2x2 scenario grid of the specification: top-left red, top-right
green, bottom-left blue, bottom-right empty. -/
def scenarioGrid : Bmp := ⟨2, 2, [0xFF0000, 0x00FF00, 0x0000FF, 0]⟩

/-- A 1x2 grid whose only non-empty pixel is a blue pixel at top-left (0,0). -/
def blueTopLeftGrid : Bmp := ⟨1, 2, [0x0000FF, 0]⟩

/-- A well-formed 4x2 decode input (width a multiple of 4, `bfOffBits = 54`,
`biSizeImage = 24`): stored row 0 starts with the bytes `255, 0, 0` and
stored row 1 is all zeros. -/
def rowProbeInput : List Nat :=
  [66, 77, 78, 0, 0, 0, 0, 0, 0, 0, 54, 0, 0, 0, 40, 0, 0, 0, 4, 0, 0, 0,
   2, 0, 0, 0, 1, 0, 24, 0, 0, 0, 0, 0, 24, 0, 0, 0, 0, 0, 0, 0, 0, 0, 0, 0,
   0, 0, 0, 0, 0, 0, 0, 0, 255, 0, 0, 0, 0, 0, 0, 0, 0, 0, 0, 0, 0, 0, 0, 0,
   0, 0, 0, 0, 0, 0, 0, 0]

/-- A 54-byte 1x1 decode input whose declared `bfOffBits` is 2, so the pixel
read window overlaps the file header's `bfSize` field; byte 2 is 0. -/
def overlapInputA : List Nat :=
  [66, 77, 0, 0, 0, 0, 0, 0, 0, 0, 2, 0, 0, 0, 40, 0, 0, 0, 1, 0, 0, 0,
   1, 0, 0, 0, 1, 0, 24, 0, 0, 0, 0, 0, 3, 0, 0, 0, 0, 0, 0, 0, 0, 0, 0, 0,
   0, 0, 0, 0, 0, 0, 0, 0]

/-- The same input as `overlapInputA` except that byte 2 (the low byte of the
unread `bfSize` field) is 7. -/
def overlapInputB : List Nat :=
  [66, 77, 7, 0, 0, 0, 0, 0, 0, 0, 2, 0, 0, 0, 40, 0, 0, 0, 1, 0, 0, 0,
   1, 0, 0, 0, 1, 0, 24, 0, 0, 0, 0, 0, 3, 0, 0, 0, 0, 0, 0, 0, 0, 0, 0, 0,
   0, 0, 0, 0, 0, 0, 0, 0]

/-- A well-formed 57-byte 1x1 decode input with `bfOffBits = 54`,
`biSizeImage = 3` and pixel bytes `1, 2, 3`; reserved byte 6 is 0. -/
def plainInputA : List Nat :=
  [66, 77, 57, 0, 0, 0, 0, 0, 0, 0, 54, 0, 0, 0, 40, 0, 0, 0, 1, 0, 0, 0,
   1, 0, 0, 0, 1, 0, 24, 0, 0, 0, 0, 0, 3, 0, 0, 0, 0, 0, 0, 0, 0, 0, 0, 0,
   0, 0, 0, 0, 0, 0, 0, 0, 1, 2, 3]

/-- The same input as `plainInputA` except that the ignored reserved byte 6
is 9. -/
def plainInputB : List Nat :=
  [66, 77, 57, 0, 0, 0, 9, 0, 0, 0, 54, 0, 0, 0, 40, 0, 0, 0, 1, 0, 0, 0,
   1, 0, 0, 0, 1, 0, 24, 0, 0, 0, 0, 0, 3, 0, 0, 0, 0, 0, 0, 0, 0, 0, 0, 0,
   0, 0, 0, 0, 0, 0, 0, 0, 1, 2, 3]

/-- A valid pixel grid (2^31 pixels in one row) whose pixel-data block is
larger than 2^32 bytes, overflowing the `u32` header size fields. -/
def hugeGrid : Bmp := ⟨2 ^ 31, 1, List.replicate (2 ^ 31) 0⟩

/-- Statement that encoding grid `b` placed the blue, green and red channel
bytes of source pixel `(x, y)` at offset `y * row_stride + x * 3` of
destination row `y` (not row `height - 1 - y`) of the pixel-data block. -/
def encodedCellMatches (b : Bmp) (o : Ode5Bmp) (y x : Nat) : Prop :=
  o.data.getD (y * calculate_row_length b.width + x * 3) 0
      = BMPixel.blue (b.pixels.getD (y * b.width + x) 0)
  ∧ o.data.getD (y * calculate_row_length b.width + x * 3 + 1) 0
      = BMPixel.green (b.pixels.getD (y * b.width + x) 0)
  ∧ o.data.getD (y * calculate_row_length b.width + x * 3 + 2) 0
      = BMPixel.red (b.pixels.getD (y * b.width + x) 0)

/-- Statement that decoding `bs` placed the pixel value read from the
pixel-data block (the `biSizeImage` bytes at offset `bfOffBits`) at offset
`y * bytes_per_row + x * 3` — blue, green, red combined as
`(r << 16) | (g << 8) | b` — at logical grid position `(x, y)` (flat index
`y * width + x`), not `(x, height - 1 - y)`. -/
def decodedCellMatches (bs : List Nat) (bmp : Bmp) (y x : Nat) : Prop :=
  y * decodeBytesPerRow bmp.width + x * 3 + 2
      < ((bs.drop (readU32 bs 10)).take (readU32 bs 34)).length
  ∧ bmp.pixels.getD (y * bmp.width + x) 0
    = ((bs.drop (readU32 bs 10)).take (readU32 bs 34)).getD
        (y * decodeBytesPerRow bmp.width + x * 3 + 2) 0 * 65536
      + ((bs.drop (readU32 bs 10)).take (readU32 bs 34)).getD
        (y * decodeBytesPerRow bmp.width + x * 3 + 1) 0 * 256
      + ((bs.drop (readU32 bs 10)).take (readU32 bs 34)).getD
        (y * decodeBytesPerRow bmp.width + x * 3) 0

/-! ## Basic list access lemmas -/

theorem getD_set_eq (l : List Nat) (i v : Nat) (h : i < l.length) :
    (l.set i v).getD i 0 = v := by
  simp [List.getD_eq_getElem?_getD, List.getElem?_set_self h]

theorem getD_set_ne (l : List Nat) (i j v : Nat) (h : i ≠ j) :
    (l.set i v).getD j 0 = l.getD j 0 := by
  simp [List.getD_eq_getElem?_getD, List.getElem?_set_ne h]

theorem getD_append_lt (l₁ l₂ : List Nat) (i : Nat) (h : i < l₁.length) :
    (l₁ ++ l₂).getD i 0 = l₁.getD i 0 := by
  simp [List.getD_eq_getElem?_getD, List.getElem?_append, h]

theorem getD_append_add (l₁ l₂ : List Nat) (i : Nat) :
    (l₁ ++ l₂).getD (l₁.length + i) 0 = l₂.getD i 0 := by
  simp [List.getD_eq_getElem?_getD, List.getElem?_append_right,
    Nat.add_sub_cancel_left]

theorem getD_of_le (l : List Nat) (i : Nat) (h : l.length ≤ i) :
    l.getD i 0 = 0 := by
  simp [List.getD_eq_getElem?_getD, List.getElem?_len_le h]

theorem optBind_eq_some {α β : Type} {x : Option α} {f : α → Option β} {b : β}
    (h : (x >>= f) = some b) : ∃ a, x = some a ∧ f a = some b := by
  cases x with
  | none => exact Option.noConfusion h
  | some a => exact ⟨a, rfl, h⟩

/-! ## Characterization of the encode pixel loop -/

theorem writeCell_length (pixels : List Nat) (w rl y x : Nat)
    (d d' : List Nat) (h : writeCell pixels w rl y x d = some d') :
    d'.length = d.length := by
  simp only [writeCell] at h
  split at h
  case isFalse => exact Option.noConfusion h
  case isTrue =>
    injection h with h
    subst h
    simp

theorem writeCell_spec (pixels : List Nat) (w rl y x : Nat) (d d' : List Nat)
    (hrl : rl < 2 ^ 32) (hix : y * rl + x * 3 + 2 < 2 ^ 32)
    (hpi : y * w + x < 2 ^ 32)
    (h : writeCell pixels w rl y x d = some d') :
    d'.length = d.length
    ∧ (∀ i, i < y * rl + x * 3 ∨ y * rl + x * 3 + 3 ≤ i →
        d'.getD i 0 = d.getD i 0)
    ∧ d'.getD (y * rl + x * 3) 0 = BMPixel.blue (pixels.getD (y * w + x) 0)
    ∧ d'.getD (y * rl + x * 3 + 1) 0 = BMPixel.green (pixels.getD (y * w + x) 0)
    ∧ d'.getD (y * rl + x * 3 + 2) 0 = BMPixel.red (pixels.getD (y * w + x) 0) := by
  simp only [writeCell] at h
  rw [Nat.mod_eq_of_lt hrl, Nat.mod_eq_of_lt (show y * rl + x * 3 < 2 ^ 32 by omega),
    Nat.mod_eq_of_lt hpi] at h
  split at h
  case isFalse => exact absurd h (by simp)
  case isTrue hcond =>
    obtain ⟨hp, hd⟩ := hcond
    have hd0 : y * rl + x * 3 < d.length := by omega
    have hd1 : y * rl + x * 3 + 1 < d.length := by omega
    have hd2 : y * rl + x * 3 + 2 < d.length := by omega
    injection h with h
    subst h
    refine ⟨by simp, ?_, ?_, ?_, ?_⟩
    · intro i hi
      rw [getD_set_ne _ _ _ _ (by omega), getD_set_ne _ _ _ _ (by omega),
        getD_set_ne _ _ _ _ (by omega)]
    · rw [getD_set_ne _ _ _ _ (by omega), getD_set_ne _ _ _ _ (by omega),
        getD_set_eq _ _ _ (by simpa using hd0)]
    · rw [getD_set_ne _ _ _ _ (by omega),
        getD_set_eq _ _ _ (by simpa using hd1)]
    · exact getD_set_eq _ _ _ (by simpa using hd2)

theorem writeCell_isSome (pixels : List Nat) (w rl y x : Nat) (d : List Nat) :
    (writeCell pixels w rl y x d).isSome
      ↔ (y * w + x) % 2 ^ 32 < pixels.length
        ∧ (y * (rl % 2 ^ 32) + x * 3) % 2 ^ 32 + 2 < d.length := by
  simp only [writeCell]
  split <;> simp_all

theorem writeRowCells_length (pixels : List Nat) (w rl y : Nat) :
    ∀ n (d d' : List Nat), writeRowCells pixels w rl y d n = some d' →
    d'.length = d.length := by
  intro n
  induction n with
  | zero =>
    intro d d' h
    injection h with h
    subst h
    rfl
  | succ n ih =>
    intro d d' h
    rw [writeRowCells] at h
    obtain ⟨dm, hdm, hcell⟩ := optBind_eq_some h
    rw [writeCell_length _ _ _ _ _ _ _ hcell, ih d dm hdm]

theorem writeRowCells_spec (pixels : List Nat) (w rl y : Nat)
    (hrl : rl < 2 ^ 32) :
    ∀ n (d d' : List Nat), y * rl + n * 3 ≤ 2 ^ 32 → y * w + n ≤ 2 ^ 32 →
    writeRowCells pixels w rl y d n = some d' →
    d'.length = d.length
    ∧ (∀ i, i < y * rl ∨ y * rl + n * 3 ≤ i → d'.getD i 0 = d.getD i 0)
    ∧ (∀ x, x < n →
        d'.getD (y * rl + x * 3) 0 = BMPixel.blue (pixels.getD (y * w + x) 0)
        ∧ d'.getD (y * rl + x * 3 + 1) 0
            = BMPixel.green (pixels.getD (y * w + x) 0)
        ∧ d'.getD (y * rl + x * 3 + 2) 0
            = BMPixel.red (pixels.getD (y * w + x) 0)) := by
  intro n
  induction n with
  | zero =>
    intro d d' _ _ h
    injection h with h
    subst h
    exact ⟨rfl, fun i _ => rfl, fun x hx => absurd hx (by omega)⟩
  | succ n ih =>
    intro d d' hix hpi h
    rw [writeRowCells] at h
    obtain ⟨dm, hdm, hcell⟩ := optBind_eq_some h
    obtain ⟨ihlen, ihout, ihval⟩ := ih d dm (by omega) (by omega) hdm
    obtain ⟨clen, cout, cb, cg, cr⟩ :=
      writeCell_spec _ _ _ _ _ _ _ hrl (by omega) (by omega) hcell
    refine ⟨by omega, ?_, ?_⟩
    · intro i hi
      rw [cout i (by omega), ihout i (by omega)]
    · intro x hx
      rcases Nat.lt_succ_iff_lt_or_eq.mp hx with hx' | hx'
      · obtain ⟨vb, vg, vr⟩ := ihval x hx'
        rw [cout _ (by omega), cout _ (by omega), cout _ (by omega)]
        exact ⟨vb, vg, vr⟩
      · subst hx'
        exact ⟨cb, cg, cr⟩

theorem writeRowCells_isSome (pixels : List Nat) (w rl y : Nat) :
    ∀ n (d : List Nat), (writeRowCells pixels w rl y d n).isSome
      ↔ ∀ x, x < n → (y * w + x) % 2 ^ 32 < pixels.length
          ∧ (y * (rl % 2 ^ 32) + x * 3) % 2 ^ 32 + 2 < d.length := by
  intro n
  induction n with
  | zero => intro d; simp [writeRowCells]
  | succ n ih =>
    intro d
    rw [writeRowCells]
    constructor
    · intro h
      rw [Option.isSome_iff_exists] at h
      obtain ⟨d', h⟩ := h
      obtain ⟨dm, hdm, hcell⟩ := optBind_eq_some h
      have hlen := writeRowCells_length pixels w rl y n d dm hdm
      have hsome := (ih d).mp (by rw [hdm]; rfl)
      have hc := (writeCell_isSome pixels w rl y n dm).mp (by rw [hcell]; rfl)
      intro x hx
      rcases Nat.lt_succ_iff_lt_or_eq.mp hx with hx' | hx'
      · exact hsome x hx'
      · subst hx'; omega
    · intro h
      have hsome := (ih d).mpr (fun x hx => h x (by omega))
      rw [Option.isSome_iff_exists] at hsome
      obtain ⟨dm, hdm⟩ := hsome
      rw [hdm]
      have hlen := writeRowCells_length pixels w rl y n d dm hdm
      have := h n (by omega)
      show (writeCell pixels w rl y n dm).isSome
      rw [writeCell_isSome]
      omega

theorem mul3_le_row_length (w : Nat) : w * 3 ≤ calculate_row_length w := by
  simp only [calculate_row_length]
  omega

theorem writeRows_length (pixels : List Nat) (w rl : Nat) :
    ∀ n (d d' : List Nat), writeRows pixels w rl n d = some d' →
    d'.length = d.length := by
  intro n
  induction n with
  | zero =>
    intro d d' h
    injection h with h
    subst h
    rfl
  | succ n ih =>
    intro d d' h
    rw [writeRows] at h
    obtain ⟨dm, hdm, hrest⟩ := optBind_eq_some h
    rw [ih dm d' hrest, writeRowCells_length _ _ _ _ _ _ _ hdm]

theorem writeRows_spec (pixels : List Nat) (w rl : Nat) (hwrl : w * 3 ≤ rl)
    (hrl : rl < 2 ^ 32) :
    ∀ n (d d' : List Nat), n * rl ≤ 2 ^ 32 → n * w ≤ 2 ^ 32 →
    writeRows pixels w rl n d = some d' →
    d'.length = d.length
    ∧ (∀ i, n * rl ≤ i → d'.getD i 0 = d.getD i 0)
    ∧ (∀ y, y < n → ∀ x, x < w →
        d'.getD (y * rl + x * 3) 0 = BMPixel.blue (pixels.getD (y * w + x) 0)
        ∧ d'.getD (y * rl + x * 3 + 1) 0
            = BMPixel.green (pixels.getD (y * w + x) 0)
        ∧ d'.getD (y * rl + x * 3 + 2) 0
            = BMPixel.red (pixels.getD (y * w + x) 0)) := by
  intro n
  induction n with
  | zero =>
    intro d d' _ _ h
    injection h with h
    subst h
    exact ⟨rfl, fun i _ => rfl, fun y hy => absurd hy (by omega)⟩
  | succ n ih =>
    intro d d' hfit hpix h
    rw [writeRows] at h
    obtain ⟨dm, hdm, hrest⟩ := optBind_eq_some h
    have hsm : (n + 1) * rl = n * rl + rl := Nat.succ_mul n rl
    have hsw : (n + 1) * w = n * w + w := Nat.succ_mul n w
    obtain ⟨rlen, rout, rval⟩ := writeRowCells_spec pixels w rl n hrl w d dm
      (by omega) (by omega) hdm
    obtain ⟨ihlen, ihout, ihval⟩ := ih dm d' (by omega) (by omega) hrest
    refine ⟨by omega, ?_, ?_⟩
    · intro i hi
      rw [Nat.succ_mul] at hi
      rw [ihout i (by omega), rout i (by omega)]
    · intro y hy x hx
      rcases Nat.lt_succ_iff_lt_or_eq.mp hy with hy' | hy'
      · exact ihval y hy' x hx
      · subst hy'
        obtain ⟨vb, vg, vr⟩ := rval x hx
        have hout1 : y * rl + x * 3 + 2 < y * rl + w * 3 := by omega
        refine ⟨?_, ?_, ?_⟩
        · rw [ihout _ (by omega), vb]
        · rw [ihout _ (by omega), vg]
        · rw [ihout _ (by omega), vr]

theorem writeRows_isSome (pixels : List Nat) (w rl : Nat) :
    ∀ n (d : List Nat), (writeRows pixels w rl n d).isSome
      ↔ ∀ y, y < n → ∀ x, x < w →
          (y * w + x) % 2 ^ 32 < pixels.length
          ∧ (y * (rl % 2 ^ 32) + x * 3) % 2 ^ 32 + 2 < d.length := by
  intro n
  induction n with
  | zero => intro d; simp [writeRows]
  | succ n ih =>
    intro d
    rw [writeRows]
    constructor
    · intro h
      rw [Option.isSome_iff_exists] at h
      obtain ⟨d', h⟩ := h
      obtain ⟨dm, hdm, hrest⟩ := optBind_eq_some h
      have hlen := writeRowCells_length pixels w rl n w d dm hdm
      have hrow := (writeRowCells_isSome pixels w rl n w d).mp (by rw [hdm]; rfl)
      have hrec := (ih dm).mp (by rw [hrest]; rfl)
      intro y hy x hx
      rcases Nat.lt_succ_iff_lt_or_eq.mp hy with hy' | hy'
      · have := hrec y hy' x hx
        omega
      · subst hy'
        exact hrow x hx
    · intro h
      have hrow := (writeRowCells_isSome pixels w rl n w d).mpr (h n (by omega))
      rw [Option.isSome_iff_exists] at hrow
      obtain ⟨dm, hdm⟩ := hrow
      rw [hdm]
      have hlen := writeRowCells_length pixels w rl n w d dm hdm
      show (writeRows pixels w rl n dm).isSome
      rw [ih dm]
      intro y hy x hx
      have := h y (by omega) x hx
      omega

/-! ## Structure of a successful encode -/

theorem encode_new_eq (b : Bmp) (o : Ode5Bmp) (h : Ode5Bmp.new b = some o) :
    o.file_header
      = { bfType := (0x42, 0x4d),
          bfSize := (54 + calculate_image_size b.width b.height) % 2 ^ 32,
          bfReserved1 := 0, bfReserved2 := 0, bfOffBits := 54 }
    ∧ o.info_header
      = { biSize := 40, biWidth := b.width % 2 ^ 32,
          biHeight := b.height % 2 ^ 32, biPlanes := 1, biBitCount := 24,
          biCompression := 0,
          biSizeImage := calculate_image_size b.width b.height % 2 ^ 32,
          biXPelsPerMeter := 0, biYPelsPerMeter := 0, biClrUsed := 0,
          biClrImportant := 0 }
    ∧ o.data.length = calculate_image_size b.width b.height := by
  rw [Ode5Bmp.new, Ode5Bmp.with_pixels, Option.map_eq_some'] at h
  obtain ⟨d, hd, ho⟩ := h
  subst ho
  have hbase :
      (Ode5Bmp.default.with_dimensions b.width b.height).data
        = List.replicate (calculate_image_size b.width b.height) 0 := by
    simp [Ode5Bmp.with_dimensions, Ode5Bmp.default]
  have hwidth :
      (Ode5Bmp.default.with_dimensions b.width b.height).info_header.biWidth
        = b.width % 2 ^ 32 := rfl
  have hheight :
      (Ode5Bmp.default.with_dimensions b.width b.height).info_header.biHeight
        = b.height % 2 ^ 32 := rfl
  have hlen := writeRows_length b.pixels _ _ _ _ _ hd
  refine ⟨?_, ?_, ?_⟩
  · show (Ode5Bmp.default.with_dimensions b.width b.height).file_header = _
    simp [Ode5Bmp.with_dimensions, Ode5Bmp.default, FileHeader.new]
  · show (Ode5Bmp.default.with_dimensions b.width b.height).info_header = _
    simp [Ode5Bmp.with_dimensions, Ode5Bmp.default, InfoHeader.default]
  · show d.length = _
    rw [hlen, hbase, List.length_replicate]

theorem encode_new_isSome (b : Bmp) (hw : b.width < 2 ^ 32)
    (hh : b.height < 2 ^ 32) (hpl : b.pixels.length = b.width * b.height)
    (hfit : calculate_image_size b.width b.height < 2 ^ 32) :
    (Ode5Bmp.new b).isSome := by
  rw [Ode5Bmp.new, Ode5Bmp.with_pixels, Option.isSome_map']
  have hbase :
      (Ode5Bmp.default.with_dimensions b.width b.height).data
        = List.replicate (calculate_image_size b.width b.height) 0 := by
    simp [Ode5Bmp.with_dimensions, Ode5Bmp.default]
  have hwidth :
      (Ode5Bmp.default.with_dimensions b.width b.height).info_header.biWidth
        = b.width % 2 ^ 32 := rfl
  have hheight :
      (Ode5Bmp.default.with_dimensions b.width b.height).info_header.biHeight
        = b.height % 2 ^ 32 := rfl
  rw [writeRows_isSome]
  simp only [hwidth, hheight, Nat.mod_eq_of_lt hw, Nat.mod_eq_of_lt hh,
    hbase, List.length_replicate]
  intro y hy x hx
  have h0 : calculate_image_size b.width b.height
      = calculate_row_length b.width * b.height := rfl
  have hrl3 := mul3_le_row_length b.width
  have hrllt : calculate_row_length b.width < 2 ^ 32 := by
    have h1 : calculate_row_length b.width * 1
        ≤ calculate_row_length b.width * b.height :=
      Nat.mul_le_mul_left _ (by omega)
    omega
  have hwh : b.width * b.height < 2 ^ 32 := by
    have ha : b.width * b.height ≤ b.width * 3 * b.height :=
      Nat.mul_le_mul_right _ (by omega)
    have hb : b.width * 3 * b.height
        ≤ calculate_row_length b.width * b.height :=
      Nat.mul_le_mul_right _ hrl3
    omega
  have hpx : y * b.width + x < b.width * b.height := by
    have h1 : (y + 1) * b.width = y * b.width + b.width := Nat.succ_mul y _
    have h2 : (y + 1) * b.width ≤ b.height * b.width :=
      Nat.mul_le_mul_right _ (by omega)
    have h3 : b.width * b.height = b.height * b.width := Nat.mul_comm _ _
    omega
  have hdx : y * calculate_row_length b.width + x * 3 + 2
      < calculate_row_length b.width * b.height := by
    have hrow : x * 3 + 2 < calculate_row_length b.width := by omega
    have h1 : (y + 1) * calculate_row_length b.width
        = y * calculate_row_length b.width + calculate_row_length b.width :=
      Nat.succ_mul y _
    have h2 : (y + 1) * calculate_row_length b.width
        ≤ b.height * calculate_row_length b.width :=
      Nat.mul_le_mul_right _ (by omega)
    have h3 : calculate_row_length b.width * b.height
        = b.height * calculate_row_length b.width := Nat.mul_comm _ _
    omega
  constructor
  · rw [Nat.mod_eq_of_lt (by omega)]
    omega
  · rw [Nat.mod_eq_of_lt hrllt, Nat.mod_eq_of_lt (by omega)]
    omega

theorem encode_new_isSome_of_zero (b : Bmp)
    (hz : b.width % 2 ^ 32 = 0 ∨ b.height % 2 ^ 32 = 0) :
    (Ode5Bmp.new b).isSome := by
  rw [Ode5Bmp.new, Ode5Bmp.with_pixels, Option.isSome_map']
  have hwidth :
      (Ode5Bmp.default.with_dimensions b.width b.height).info_header.biWidth
        = b.width % 2 ^ 32 := rfl
  have hheight :
      (Ode5Bmp.default.with_dimensions b.width b.height).info_header.biHeight
        = b.height % 2 ^ 32 := rfl
  rw [writeRows_isSome]
  simp only [hwidth, hheight]
  intro y hy x hx
  rcases hz with hz | hz <;> omega

theorem hugeGrid_encode_isSome : (Ode5Bmp.new hugeGrid).isSome := by
  rw [Ode5Bmp.new, Ode5Bmp.with_pixels, Option.isSome_map']
  have hw1 :
      (Ode5Bmp.default.with_dimensions hugeGrid.width hugeGrid.height).info_header.biWidth
        = 2 ^ 31 := by
    show hugeGrid.width % 2 ^ 32 = 2 ^ 31
    norm_num [hugeGrid]
  have hh1 :
      (Ode5Bmp.default.with_dimensions hugeGrid.width hugeGrid.height).info_header.biHeight
        = 1 := by
    show hugeGrid.height % 2 ^ 32 = 1
    norm_num [hugeGrid]
  have hdl :
      (Ode5Bmp.default.with_dimensions hugeGrid.width hugeGrid.height).data.length
        = 6442450944 := by
    have hbase :
        (Ode5Bmp.default.with_dimensions hugeGrid.width hugeGrid.height).data
          = List.replicate (calculate_image_size hugeGrid.width hugeGrid.height) 0 := by
      simp [Ode5Bmp.with_dimensions, Ode5Bmp.default]
    rw [hbase, List.length_replicate]
    show calculate_image_size (2 ^ 31) 1 = 6442450944
    norm_num [calculate_image_size, calculate_row_length]
  have hplen : hugeGrid.pixels.length = 2 ^ 31 := by
    show (List.replicate (2 ^ 31) 0).length = 2 ^ 31
    rw [List.length_replicate]
  rw [writeRows_isSome]
  simp only [hw1, hh1, hdl, hplen]
  intro y hy x hx
  have hy0 : y = 0 := by omega
  subst hy0
  constructor <;> omega

theorem to_bytes_length (o : Ode5Bmp) :
    o.to_bytes.length = 54 + o.data.length := by
  simp [Ode5Bmp.to_bytes, FileHeader.to_bytes, InfoHeader.to_bytes,
    u32ToLe, u16ToLe]
  omega

theorem readU32_to_bytes_2 (o : Ode5Bmp) :
    readU32 o.to_bytes 2 = o.file_header.bfSize % 2 ^ 32 := by
  have h : readU32 o.to_bytes 2
      = o.file_header.bfSize % 256 + o.file_header.bfSize / 256 % 256 * 256
        + o.file_header.bfSize / 65536 % 256 * 65536
        + o.file_header.bfSize / 16777216 % 256 * 16777216 := rfl
  have h32 : (2 : Nat) ^ 32 = 4294967296 := by norm_num
  rw [h, h32]
  omega

theorem readU32_to_bytes_10 (o : Ode5Bmp) :
    readU32 o.to_bytes 10 = o.file_header.bfOffBits % 2 ^ 32 := by
  have h : readU32 o.to_bytes 10
      = o.file_header.bfOffBits % 256
        + o.file_header.bfOffBits / 256 % 256 * 256
        + o.file_header.bfOffBits / 65536 % 256 * 65536
        + o.file_header.bfOffBits / 16777216 % 256 * 16777216 := rfl
  have h32 : (2 : Nat) ^ 32 = 4294967296 := by norm_num
  rw [h, h32]
  omega

theorem readU32_to_bytes_34 (o : Ode5Bmp) :
    readU32 o.to_bytes 34 = o.info_header.biSizeImage % 2 ^ 32 := by
  have h : readU32 o.to_bytes 34
      = o.info_header.biSizeImage % 256
        + o.info_header.biSizeImage / 256 % 256 * 256
        + o.info_header.biSizeImage / 65536 % 256 * 65536
        + o.info_header.biSizeImage / 16777216 % 256 * 16777216 := rfl
  have h32 : (2 : Nat) ^ 32 = 4294967296 := by norm_num
  rw [h, h32]
  omega

/-! ## Characterization of the decode pixel loop -/

theorem rowPixels_spec (data : List Nat) (bpr y : Nat) :
    ∀ n l, rowPixels data bpr y n = some l →
    l.length = n
    ∧ ∀ x, x < n →
        y * bpr + x * 3 + 2 < data.length
        ∧ l.getD x 0
          = data.getD (y * bpr + x * 3 + 2) 0 * 65536
            + data.getD (y * bpr + x * 3 + 1) 0 * 256
            + data.getD (y * bpr + x * 3) 0 := by
  intro n
  induction n with
  | zero =>
    intro l h
    injection h with h
    subst h
    exact ⟨rfl, fun x hx => absurd hx (by omega)⟩
  | succ n ih =>
    intro l h
    rw [rowPixels] at h
    obtain ⟨l₀, hl₀, h⟩ := optBind_eq_some h
    obtain ⟨p, hp, h⟩ := optBind_eq_some h
    injection h with h
    subst h
    obtain ⟨ihlen, ihval⟩ := ih l₀ hl₀
    simp only [pixelAt] at hp
    split at hp
    case isFalse => exact Option.noConfusion hp
    case isTrue hcond =>
      injection hp with hp
      refine ⟨by simp [ihlen], ?_⟩
      intro x hx
      rcases Nat.lt_succ_iff_lt_or_eq.mp hx with hx' | hx'
      · obtain ⟨hb, hv⟩ := ihval x hx'
        exact ⟨hb, by rw [getD_append_lt _ _ _ (by omega), hv]⟩
      · subst hx'
        refine ⟨hcond, ?_⟩
        have : (l₀ ++ [p]).getD x 0 = p := by
          have hx0 : x = l₀.length + 0 := by omega
          rw [hx0, getD_append_add]
          rfl
        rw [this, ← hp]

theorem decodePixels_spec (data : List Nat) (bpr w : Nat) :
    ∀ n ps, decodePixels data bpr w n = some ps →
    ps.length = n * w
    ∧ ∀ y, y < n → ∀ x, x < w →
        y * bpr + x * 3 + 2 < data.length
        ∧ ps.getD (y * w + x) 0
          = data.getD (y * bpr + x * 3 + 2) 0 * 65536
            + data.getD (y * bpr + x * 3 + 1) 0 * 256
            + data.getD (y * bpr + x * 3) 0 := by
  intro n
  induction n with
  | zero =>
    intro ps h
    injection h with h
    subst h
    exact ⟨by simp, fun y hy => absurd hy (by omega)⟩
  | succ n ih =>
    intro ps h
    rw [decodePixels] at h
    obtain ⟨l₀, hl₀, h⟩ := optBind_eq_some h
    obtain ⟨row, hrow, h⟩ := optBind_eq_some h
    injection h with h
    subst h
    obtain ⟨ihlen, ihval⟩ := ih l₀ hl₀
    obtain ⟨rlen, rval⟩ := rowPixels_spec data bpr n w row hrow
    have hlen : (l₀ ++ row).length = (n + 1) * w := by
      rw [List.length_append, ihlen, rlen, Nat.succ_mul]
    refine ⟨hlen, ?_⟩
    intro y hy x hx
    rcases Nat.lt_succ_iff_lt_or_eq.mp hy with hy' | hy'
    · obtain ⟨hb, hv⟩ := ihval y hy' x hx
      have hidx : y * w + x < l₀.length := by
        rw [ihlen]
        have h1 : (y + 1) * w = y * w + w := Nat.succ_mul y w
        have h2 : (y + 1) * w ≤ n * w := Nat.mul_le_mul_right _ (by omega)
        omega
      exact ⟨hb, by rw [getD_append_lt _ _ _ hidx, hv]⟩
    · subst hy'
      obtain ⟨hb, hv⟩ := rval x hx
      refine ⟨hb, ?_⟩
      have hidx : y * w + x = l₀.length + x := by rw [ihlen]
      rw [hidx, getD_append_add, hv]

/-- Shape of a successful decode: the grid dimensions come from the header's
width and height fields, and every pixel is the BGR triple read from the
pixel-data block `(bs.drop bfOffBits).take biSizeImage` at stride
`decodeBytesPerRow width`, stored row `y` landing at logical row `y`. -/
theorem decode_ok_spec (bs : List Nat) (bmp : Bmp)
    (h : decode bs = .ok bmp) :
    bmp.width = readU32 bs 18
    ∧ bmp.height = readU32 bs 22
    ∧ bmp.pixels.length = bmp.height * bmp.width
    ∧ ∀ y, y < bmp.height → ∀ x, x < bmp.width →
        y * decodeBytesPerRow bmp.width + x * 3 + 2
            < ((bs.drop (readU32 bs 10)).take (readU32 bs 34)).length
        ∧ bmp.pixels.getD (y * bmp.width + x) 0
          = ((bs.drop (readU32 bs 10)).take (readU32 bs 34)).getD
              (y * decodeBytesPerRow bmp.width + x * 3 + 2) 0 * 65536
            + ((bs.drop (readU32 bs 10)).take (readU32 bs 34)).getD
              (y * decodeBytesPerRow bmp.width + x * 3 + 1) 0 * 256
            + ((bs.drop (readU32 bs 10)).take (readU32 bs 34)).getD
              (y * decodeBytesPerRow bmp.width + x * 3) 0 := by
  rw [decode] at h
  split at h; · exact Except.noConfusion h
  split at h; · exact Except.noConfusion h
  split at h; · exact Except.noConfusion h
  split at h; · exact Except.noConfusion h
  split at h; · exact Except.noConfusion h
  simp only [] at h
  split at h; · exact Except.noConfusion h
  rename_i h1 h2 h3 h4 h5 h6
  revert h
  cases hdp : decodePixels ((bs.drop (readU32 bs 10)).take (readU32 bs 34))
      (decodeBytesPerRow (readU32 bs 18)) (readU32 bs 18) (readU32 bs 22) with
  | none => intro h; exact Except.noConfusion h
  | some ps =>
    intro h
    injection h with h
    subst h
    obtain ⟨hlen, hval⟩ := decodePixels_spec _ _ _ _ _ hdp
    exact ⟨rfl, rfl, by rw [hlen], fun y hy x hx => hval y hy x hx⟩

/-! ## Claim theorems -/

/-- C1: the round-trip claim fails on the code. For the specification's own
2x2 scenario grid (top-left red, top-right green, bottom-left blue,
bottom-right empty), encode produces the expected 70 bytes, but decoding that
output yields pixel 0xFF0000 instead of 0x0000FF at logical position (0,1):
the encoder pads each row to stride `calculate_row_length 2 = 8` while the
decoder reads rows at the unpadded stride `decodeBytesPerRow 2 = 6`, so
`decode (encode G) ≠ G`. -/
theorem roundtrip_scenario_fails :
    (encodeBytes scenarioGrid).map List.length = some 70
    ∧ (encodeBytes scenarioGrid).map decode
      = some (.ok ⟨2, 2, [0xFF0000, 0x00FF00, 0xFF0000, 0]⟩)
    ∧ (⟨2, 2, [0xFF0000, 0x00FF00, 0xFF0000, 0]⟩ : Bmp) ≠ scenarioGrid := by
  decide

/-- C4: the decode path's floating-point row stride
`ceil(width / (8/24))` evaluates to the unpadded `3 * width` — at the repo's
own test width 45 it gives 135 — whereas the geometry calculator's
`calculate_row_length 45 = 136`; the two rounding schemes are not
identical. -/
theorem decode_stride_mismatch_at_45 :
    decodeBytesPerRow 45 = 135 ∧ calculate_row_length 45 = 136
    ∧ decodeBytesPerRow 45 ≠ calculate_row_length 45 := by decide

/-- C7: `calculate_row_length` rounds `3w` up to the next multiple of 4
(zero at width 0), `calculate_image_size` is `row_stride * height`, and the
specification's numeric examples hold. -/
theorem row_stride_image_size_correct (w h : Nat) :
    calculate_row_length w = 3 * w + ((4 - (3 * w) % 4) % 4)
    ∧ calculate_row_length w % 4 = 0
    ∧ calculate_row_length w - 3 * w < 4
    ∧ calculate_image_size w h = calculate_row_length w * h
    ∧ calculate_row_length 0 = 0
    ∧ calculate_row_length 45 = 136
    ∧ calculate_row_length 4 = 12
    ∧ calculate_image_size 45 30 = 4080 := by
  refine ⟨?_, ?_, ?_, rfl, rfl, rfl, rfl, rfl⟩ <;>
    simp only [calculate_row_length] <;> omega

/-- C2 counterexample: encoding the 1x2 grid whose only non-empty pixel is
blue at top-left (0,0) puts the blue byte at the start of the FIRST row of
the pixel-data block (`data = [255,0,0,0, 0,0,0,0]`), not in the last row as
the claim predicts (`[0,0,0,0, 255,0,0,0]`). -/
theorem encode_blue_first_row_cex :
    (Ode5Bmp.new blueTopLeftGrid).map Ode5Bmp.data
      = some [255, 0, 0, 0, 0, 0, 0, 0]
    ∧ ¬ ((Ode5Bmp.new blueTopLeftGrid).map Ode5Bmp.data
          = some [0, 0, 0, 0, 255, 0, 0, 0]) := by decide

/-- C3 counterexample: in the well-formed 4x2 input `rowProbeInput`, stored
row 0 column 0 reads as pixel value 255; the claim predicts it lands at
logical (0, height-1-0) = (0,1), flat index 4, but the decoder places it at
flat index 0 (logical (0,0)) and leaves index 4 zero. -/
theorem decode_no_flip_cex :
    decode rowProbeInput = .ok ⟨4, 2, [255, 0, 0, 0, 0, 0, 0, 0]⟩
    ∧ (⟨4, 2, [255, 0, 0, 0, 0, 0, 0, 0]⟩ : Bmp).pixels.getD ((2 - 1 - 0) * 4 + 0) 0 = 0
    ∧ (⟨4, 2, [255, 0, 0, 0, 0, 0, 0, 0]⟩ : Bmp).pixels.getD 0 0 = 255 := by
  decide

/-- C8 counterexample: `set_pixel` does not reject out-of-bounds coordinates.
On a 2x2 grid, the call with x = 2 ≥ width = 2 (and y = 0) is not refused: it
writes pixel value 7 at the in-range flat index `0 * 2 + 2 = 2`, which is
logical position (0, 1). -/
theorem set_pixel_no_bounds_check_cex :
    Bmp.set_pixel (Bmp.new 2 2) 2 0 7 = some ⟨2, 2, [0, 0, 7, 0]⟩
    ∧ Bmp.set_pixel (Bmp.new 2 2) 2 0 7 ≠ none := by decide

/-- C8 amended: construction establishes `width * height` as the element
count, and `set_pixel` preserves the dimensions and the element count
whenever it succeeds; but it refuses a call (panics) exactly when the flat
index `y * width + x` is out of range, so a call with `x ≥ width` whose flat
index is in range succeeds and writes that flat index. -/
theorem grid_invariant_set_pixel (w h : Nat) (b : Bmp) (x y p : Nat) :
    (Bmp.new w h).width = w ∧ (Bmp.new w h).height = h
    ∧ (Bmp.new w h).pixels.length = w * h
    ∧ (if y * b.width + x < b.pixels.length
        then ∃ b', b.set_pixel x y p = some b' ∧ b'.width = b.width
          ∧ b'.height = b.height ∧ b'.pixels.length = b.pixels.length
        else b.set_pixel x y p = none) := by
  refine ⟨rfl, rfl, by simp [Bmp.new], ?_⟩
  by_cases hc : y * b.width + x < b.pixels.length
  · rw [if_pos hc]
    refine ⟨{ b with pixels := b.pixels.set (y * b.width + x) p }, ?_, rfl,
      rfl, by simp⟩
    rw [Bmp.set_pixel, if_pos hc]
  · rw [if_neg hc, Bmp.set_pixel, if_neg hc]

/-- C2 amended: on encode, each source row `y` of the pixel grid is written
into destination row `y` of the pixel-data block (top-down, despite the
reversed iteration order): for every in-range cell, the blue, green, red
bytes of pixel `(x, y)` land at offset `y * row_stride + x * 3`; in
particular a blue pixel at (0,0) lands in the FIRST row of the block. The
image-size bound keeps the source's `u32` index arithmetic from wrapping. -/
theorem encode_rows_top_down (b : Bmp) (hw : b.width < 2 ^ 32)
    (hh : b.height < 2 ^ 32) (hpl : b.pixels.length = b.width * b.height)
    (hfit : calculate_image_size b.width b.height < 2 ^ 32) :
    ∃ o, Ode5Bmp.new b = some o
      ∧ ∀ y, y < b.height → ∀ x, x < b.width → encodedCellMatches b o y x := by
  have hsome := encode_new_isSome b hw hh hpl hfit
  rw [Option.isSome_iff_exists] at hsome
  obtain ⟨o, ho⟩ := hsome
  refine ⟨o, ho, ?_⟩
  by_cases h00 : b.height = 0
  · intro y hy
    rw [h00] at hy
    exact absurd hy (by omega)
  rw [Ode5Bmp.new, Ode5Bmp.with_pixels, Option.map_eq_some'] at ho
  obtain ⟨d, hd, ho'⟩ := ho
  have hwidth :
      (Ode5Bmp.default.with_dimensions b.width b.height).info_header.biWidth
        = b.width % 2 ^ 32 := rfl
  have hheight :
      (Ode5Bmp.default.with_dimensions b.width b.height).info_header.biHeight
        = b.height % 2 ^ 32 := rfl
  rw [hwidth, hheight, Nat.mod_eq_of_lt hw, Nat.mod_eq_of_lt hh] at hd
  have h0' : calculate_image_size b.width b.height
      = calculate_row_length b.width * b.height := rfl
  have hrl3 := mul3_le_row_length b.width
  have hrllt : calculate_row_length b.width < 2 ^ 32 := by
    have h1 : calculate_row_length b.width * 1
        ≤ calculate_row_length b.width * b.height :=
      Nat.mul_le_mul_left _ (by omega)
    omega
  have hfit1 : b.height * calculate_row_length b.width ≤ 2 ^ 32 := by
    have h3 : calculate_row_length b.width * b.height
        = b.height * calculate_row_length b.width := Nat.mul_comm _ _
    omega
  have hfit2 : b.height * b.width ≤ 2 ^ 32 := by
    have ha : b.height * b.width ≤ b.height * calculate_row_length b.width :=
      Nat.mul_le_mul_left _ (by omega)
    omega
  have hspec := (writeRows_spec b.pixels b.width (calculate_row_length b.width)
    (mul3_le_row_length _) hrllt b.height _ d hfit1 hfit2 hd).2.2
  intro y hy x hx
  have hcell := hspec y hy x hx
  have hod : o.data = d := by rw [← ho']
  unfold encodedCellMatches
  rw [hod]
  exact hcell

/-- C2 amended, witness: the 1x2 blue-top-left grid encodes with its blue
pixel's bytes in destination row 0. -/
theorem encode_rows_top_down_witness :
    ∃ o, Ode5Bmp.new blueTopLeftGrid = some o
      ∧ ∀ y, y < blueTopLeftGrid.height → ∀ x, x < blueTopLeftGrid.width →
          encodedCellMatches blueTopLeftGrid o y x :=
  encode_rows_top_down blueTopLeftGrid (by decide) (by decide) (by decide)
    (by decide)

/-- C3 amended: on decode, for every stored row index `y` and column `x` of
a successfully decoded grid, the pixel read from the pixel-data block at
offset `y * bytes_per_row + x * 3` (blue, green, red bytes combined) is
placed at logical grid position `(x, y)` — stored row `y` maps to logical
row `y`, not `height - 1 - y`. -/
theorem decode_rows_top_down (bs : List Nat) (bmp : Bmp)
    (hdec : decode bs = .ok bmp) (y x : Nat) (hy : y < bmp.height)
    (hx : x < bmp.width) : decodedCellMatches bs bmp y x := by
  unfold decodedCellMatches
  exact (decode_ok_spec bs bmp hdec).2.2.2 y hy x hx

/-- C3 amended, witness: in `rowProbeInput` the stored row 0, column 0 pixel
is placed at logical (0,0). -/
theorem decode_rows_top_down_witness :
    decodedCellMatches rowProbeInput ⟨4, 2, [255, 0, 0, 0, 0, 0, 0, 0]⟩ 0 0 :=
  decode_rows_top_down rowProbeInput ⟨4, 2, [255, 0, 0, 0, 0, 0, 0, 0]⟩
    (by decide) 0 0 (by decide) (by decide)

/-- C5: decode fails with the signature panic (FormatError) exactly when the
header is readable (at least 14 bytes) but the first two bytes are not
0x42, 0x4D; with the unsupported-format panic exactly when both headers are
readable, the signature matches, and `biBitCount ≠ 24` or
`biCompression ≠ 0`; and with a failed `read_exact` (TruncatedInputError)
exactly when fewer bytes are available than a header read or the declared
`biSizeImage` at `bfOffBits` requires. Each failure is terminal and is a
distinct `Except.error` value, so no partial image is returned. -/
theorem decode_error_characterization (bs : List Nat) :
    (decode bs = .error .formatError
      ↔ 14 ≤ bs.length ∧ ¬(bs.getD 0 0 = 0x42 ∧ bs.getD 1 0 = 0x4D))
    ∧ (decode bs = .error .unsupportedFormat
      ↔ 54 ≤ bs.length ∧ (bs.getD 0 0 = 0x42 ∧ bs.getD 1 0 = 0x4D)
        ∧ (readU16 bs 28 ≠ 24 ∨ readU32 bs 30 ≠ 0))
    ∧ (decode bs = .error .truncatedInput
      ↔ bs.length < 14
        ∨ ((bs.getD 0 0 = 0x42 ∧ bs.getD 1 0 = 0x4D) ∧ bs.length < 54)
        ∨ ((bs.getD 0 0 = 0x42 ∧ bs.getD 1 0 = 0x4D) ∧ 54 ≤ bs.length
            ∧ readU16 bs 28 = 24 ∧ readU32 bs 30 = 0
            ∧ bs.length - readU32 bs 10 < readU32 bs 34)) := by
  simp only [decode]
  by_cases h1 : bs.length < 14
  · rw [if_pos h1]
    exact ⟨⟨fun hc => by simp at hc, fun hc => absurd hc.1 (by omega)⟩,
      ⟨fun hc => by simp at hc, fun hc => absurd hc.1 (by omega)⟩,
      ⟨fun _ => Or.inl h1, fun _ => rfl⟩⟩
  rw [if_neg h1]
  by_cases h2 : bs.getD 0 0 ≠ 0x42 ∨ bs.getD 1 0 ≠ 0x4D
  · rw [if_pos h2]
    refine ⟨⟨fun _ => ⟨by omega, fun hm => ?_⟩, fun _ => rfl⟩,
      ⟨fun hc => by simp at hc, fun hc => ?_⟩,
      ⟨fun hc => by simp at hc, fun hc => ?_⟩⟩
    · rcases h2 with h | h
      · exact h hm.1
      · exact h hm.2
    · rcases h2 with h | h
      · exact absurd hc.2.1.1 h
      · exact absurd hc.2.1.2 h
    · rcases hc with hc | hc | hc
      · exact absurd hc (by omega)
      · rcases h2 with h | h
        · exact absurd hc.1.1 h
        · exact absurd hc.1.2 h
      · rcases h2 with h | h
        · exact absurd hc.1.1 h
        · exact absurd hc.1.2 h
  rw [if_neg h2]
  push_neg at h2
  by_cases h3 : bs.length < 54
  · rw [if_pos h3]
    exact ⟨⟨fun hc => by simp at hc, fun hc => absurd h2 hc.2⟩,
      ⟨fun hc => by simp at hc, fun hc => absurd hc.1 (by omega)⟩,
      ⟨fun _ => Or.inr (Or.inl ⟨h2, h3⟩), fun _ => rfl⟩⟩
  rw [if_neg h3]
  by_cases h4 : readU16 bs 28 ≠ 24
  · rw [if_pos h4]
    refine ⟨⟨fun hc => by simp at hc, fun hc => absurd h2 hc.2⟩,
      ⟨fun _ => ⟨by omega, h2, Or.inl h4⟩, fun _ => rfl⟩,
      ⟨fun hc => by simp at hc, fun hc => ?_⟩⟩
    rcases hc with hc | hc | hc
    · exact absurd hc (by omega)
    · exact absurd hc.2 h3
    · exact absurd hc.2.2.1 h4
  rw [if_neg h4]
  push_neg at h4
  by_cases h5 : readU32 bs 30 ≠ 0
  · rw [if_pos h5]
    refine ⟨⟨fun hc => by simp at hc, fun hc => absurd h2 hc.2⟩,
      ⟨fun _ => ⟨by omega, h2, Or.inr h5⟩, fun _ => rfl⟩,
      ⟨fun hc => by simp at hc, fun hc => ?_⟩⟩
    rcases hc with hc | hc | hc
    · exact absurd hc (by omega)
    · exact absurd hc.2 h3
    · exact absurd hc.2.2.2.1 h5
  rw [if_neg h5]
  push_neg at h5
  by_cases h6 : ¬ readU32 bs 34 ≤ bs.length - readU32 bs 10
  · rw [if_pos h6]
    refine ⟨⟨fun hc => by simp at hc, fun hc => absurd h2 hc.2⟩,
      ⟨fun hc => by simp at hc, fun hc => ?_⟩,
      ⟨fun _ => Or.inr (Or.inr ⟨h2, by omega, h4, h5, by omega⟩),
        fun _ => rfl⟩⟩
    rcases hc.2.2 with hb | hb
    · exact absurd h4 hb
    · exact absurd h5 hb
  rw [if_neg h6]
  push_neg at h6
  cases hdp : decodePixels ((bs.drop (readU32 bs 10)).take (readU32 bs 34))
      (decodeBytesPerRow (readU32 bs 18)) (readU32 bs 18)
      (readU32 bs 22) <;>
    refine ⟨⟨fun hc => by simp at hc, fun hc => absurd h2 hc.2⟩,
      ⟨fun hc => by simp at hc, fun hc => ?_⟩,
      ⟨fun hc => by simp at hc, fun hc => ?_⟩⟩
  · rcases hc.2.2 with hb | hb
    · exact absurd h4 hb
    · exact absurd h5 hb
  · rcases hc with hc | hc | hc
    · exact absurd hc (by omega)
    · exact absurd hc.2 h3
    · exact absurd hc.2.2.2.2 (by omega)
  · rcases hc.2.2 with hb | hb
    · exact absurd h4 hb
    · exact absurd h5 hb
  · rcases hc with hc | hc | hc
    · exact absurd hc (by omega)
    · exact absurd hc.2 h3
    · exact absurd hc.2.2.2.2 (by omega)

/-- C6 amended: for every valid pixel grid whose encoded size fits the
`u32` file-size field (`54 + image_size < 2^32`), the encoded output has
length exactly `54 + image_size(w,h)`, bytes [2..6) read as little-endian
`u32` equal `54 + image_size(w,h)`, and bytes [10..14) equal 54. Without the
fit hypothesis the size field is truncated modulo 2^32 (see the
counterexample). -/
theorem encode_header_invariants (b : Bmp)
    (hpl : b.pixels.length = b.width * b.height)
    (hfit : 54 + calculate_image_size b.width b.height < 2 ^ 32) :
    ∃ out, encodeBytes b = some out
      ∧ out.length = 54 + calculate_image_size b.width b.height
      ∧ readU32 out 2 = 54 + calculate_image_size b.width b.height
      ∧ readU32 out 10 = 54 := by
  have hsome : (Ode5Bmp.new b).isSome := by
    by_cases hw0 : b.width = 0
    · exact encode_new_isSome_of_zero b (Or.inl (by rw [hw0]; rfl))
    by_cases hh0 : b.height = 0
    · exact encode_new_isSome_of_zero b (Or.inr (by rw [hh0]; rfl))
    have himg : calculate_image_size b.width b.height < 2 ^ 32 := by omega
    have hrl : b.width * 3 ≤ calculate_row_length b.width :=
      mul3_le_row_length _
    have himg' : calculate_image_size b.width b.height
        = calculate_row_length b.width * b.height := rfl
    have hw : b.width < 2 ^ 32 := by
      have h1 : calculate_row_length b.width
          ≤ calculate_row_length b.width * b.height :=
        Nat.le_mul_of_pos_right _ (by omega)
      omega
    have hh : b.height < 2 ^ 32 := by
      have h1 : 1 * b.height ≤ calculate_row_length b.width * b.height :=
        Nat.mul_le_mul_right _ (by omega)
      omega
    exact encode_new_isSome b hw hh hpl himg
  rw [Option.isSome_iff_exists] at hsome
  obtain ⟨o, ho⟩ := hsome
  obtain ⟨hfh, hih, hdlen⟩ := encode_new_eq b o ho
  refine ⟨o.to_bytes, by rw [encodeBytes, ho]; rfl, ?_, ?_, ?_⟩
  · rw [to_bytes_length, hdlen]
  · rw [readU32_to_bytes_2, hfh]
    show (54 + calculate_image_size b.width b.height) % 2 ^ 32 % 2 ^ 32 = _
    rw [Nat.mod_mod_of_dvd _ dvd_rfl, Nat.mod_eq_of_lt hfit]
  · rw [readU32_to_bytes_10, hfh]
    show (54 : Nat) % 2 ^ 32 % 2 ^ 32 = 54
    norm_num

/-- C6 amended, witness: a 1x1 grid satisfies the fit hypothesis and its
encoding carries the exact size fields. -/
theorem encode_header_invariants_witness :
    ∃ out, encodeBytes ⟨1, 1, [5]⟩ = some out
      ∧ out.length = 54 + calculate_image_size 1 1
      ∧ readU32 out 2 = 54 + calculate_image_size 1 1
      ∧ readU32 out 10 = 54 :=
  encode_header_invariants ⟨1, 1, [5]⟩ (by decide) (by decide)

/-- C6 counterexample: the valid grid of width 2^31 and height 1 has
`image_size = 6442450944 ≥ 2^32`; its encoding succeeds, but bytes [2..6)
read back as `(54 + 6442450944) mod 2^32 = 2147483702`, not
`54 + image_size = 6442450998`. -/
theorem encode_header_size_overflow_cex :
    (encodeBytes hugeGrid).map (fun out => readU32 out 2) = some 2147483702
    ∧ 54 + calculate_image_size hugeGrid.width hugeGrid.height = 6442450998
    ∧ (2147483702 : Nat) ≠ 6442450998 := by
  have himg : calculate_image_size hugeGrid.width hugeGrid.height
      = 6442450944 := by
    show calculate_image_size (2 ^ 31) 1 = 6442450944
    rw [calculate_image_size]
    norm_num [calculate_row_length]
  have hsome : (Ode5Bmp.new hugeGrid).isSome := hugeGrid_encode_isSome
  rw [Option.isSome_iff_exists] at hsome
  obtain ⟨o, ho⟩ := hsome
  obtain ⟨hfh, _, _⟩ := encode_new_eq _ _ ho
  refine ⟨?_, by rw [himg], by norm_num⟩
  rw [encodeBytes, ho]
  show some (readU32 o.to_bytes 2) = some 2147483702
  rw [readU32_to_bytes_2, hfh]
  show some ((54 + calculate_image_size hugeGrid.width hugeGrid.height)
      % 2 ^ 32 % 2 ^ 32) = some 2147483702
  rw [himg]
  norm_num

/-- C10: encoding a grid with width 0 or height 0 and an empty pixel list
succeeds and produces exactly the 54 header bytes: `biSizeImage` is 0 and the
pixel-data block is empty. -/
theorem encode_empty_grid (w h : Nat) (hz : w = 0 ∨ h = 0) :
    ∃ out, encodeBytes ⟨w, h, []⟩ = some out ∧ out.length = 54
      ∧ readU32 out 34 = 0 ∧ out.drop 54 = [] := by
  have hsome : (Ode5Bmp.new ⟨w, h, []⟩).isSome := by
    refine encode_new_isSome_of_zero ⟨w, h, []⟩ ?_
    rcases hz with hz | hz
    · exact Or.inl (by show w % 2 ^ 32 = 0; omega)
    · exact Or.inr (by show h % 2 ^ 32 = 0; omega)
  rw [Option.isSome_iff_exists] at hsome
  obtain ⟨o, ho⟩ := hsome
  obtain ⟨hfh, hih, hdlen⟩ := encode_new_eq _ _ ho
  have himg : calculate_image_size w h = 0 := by
    rcases hz with hz | hz <;> subst hz <;>
      simp [calculate_image_size, calculate_row_length]
  have hlen : o.to_bytes.length = 54 := by
    rw [to_bytes_length, hdlen]
    show 54 + calculate_image_size w h = 54
    rw [himg]
  refine ⟨o.to_bytes, by rw [encodeBytes, ho]; rfl, hlen, ?_, ?_⟩
  · rw [readU32_to_bytes_34, hih]
    show calculate_image_size w h % 2 ^ 32 % 2 ^ 32 = 0
    rw [himg]
    norm_num
  · exact List.drop_eq_nil_of_le (by rw [hlen])

/-- C10 witness: the 0x5 grid encodes to exactly 54 bytes. -/
theorem encode_empty_grid_witness :
    ∃ out, encodeBytes ⟨0, 5, []⟩ = some out ∧ out.length = 54
      ∧ readU32 out 34 = 0 ∧ out.drop 54 = [] :=
  encode_empty_grid 0 5 (Or.inl rfl)

theorem getElem?_eq_some_getD (l : List Nat) (i : Nat) (h : i < l.length) :
    l[i]? = some (l.getD i 0) := by
  rw [List.getD_eq_getElem?_getD, List.getElem?_eq_getElem h]
  rfl

/-- C9 counterexample: when the declared `bfOffBits` is smaller than 54 the
pixel read window overlaps the header, so two inputs that differ only in
byte 2 — the low byte of the unread `bfSize` field — both decode
successfully but yield different pixel values. -/
theorem decode_reads_dead_bytes_cex :
    decode overlapInputA = .ok ⟨1, 1, [0]⟩
    ∧ decode overlapInputB = .ok ⟨1, 1, [7]⟩
    ∧ overlapInputA.length = overlapInputB.length
    ∧ (∀ i, i < overlapInputA.length → ¬ deadHeaderByte i →
        overlapInputA.getD i 0 = overlapInputB.getD i 0)
    ∧ (⟨1, 1, [0]⟩ : Bmp) ≠ ⟨1, 1, [7]⟩ := by decide

/-- C9 amended: the decoded result is independent of the file header's size
field (bytes 2..6), the reserved fields (6..10), and the info header's
`biSize`, `biPlanes`, resolution and palette-count fields, PROVIDED the
declared `bfOffBits` is at least 54 (so the pixel read window cannot overlap
those header bytes): two same-length inputs agreeing outside the dead bytes
decode to identical results — same grid on success, same error kind on
failure. -/
theorem decode_ignores_dead_header_bytes (bs1 bs2 : List Nat)
    (hlen : bs1.length = bs2.length)
    (hagree : ∀ i, i < bs1.length → ¬ deadHeaderByte i →
      bs1.getD i 0 = bs2.getD i 0)
    (hoff : 54 ≤ readU32 bs1 10) :
    decode bs1 = decode bs2 := by
  have hg : ∀ i, ¬ deadHeaderByte i → bs1.getD i 0 = bs2.getD i 0 := by
    intro i hi
    by_cases h : i < bs1.length
    · exact hagree i h hi
    · rw [getD_of_le _ _ (by omega), getD_of_le _ _ (by omega)]
  have hq : ∀ i, ¬ deadHeaderByte i → bs1[i]? = bs2[i]? := by
    intro i hi
    by_cases h : i < bs1.length
    · rw [getElem?_eq_some_getD _ _ h, getElem?_eq_some_getD _ _ (hlen ▸ h),
        hg i hi]
    · rw [List.getElem?_len_le (by omega), List.getElem?_len_le (by omega)]
  have e0 : bs1.getD 0 0 = bs2.getD 0 0 := hg 0 (by decide)
  have e1 : bs1.getD 1 0 = bs2.getD 1 0 := hg 1 (by decide)
  have e16 : readU16 bs1 28 = readU16 bs2 28 := by
    unfold readU16
    rw [hg 28 (by decide), hg 29 (by decide)]
  have e30 : readU32 bs1 30 = readU32 bs2 30 := by
    unfold readU32
    rw [hg 30 (by decide), hg 31 (by decide), hg 32 (by decide),
      hg 33 (by decide)]
  have e18 : readU32 bs1 18 = readU32 bs2 18 := by
    unfold readU32
    rw [hg 18 (by decide), hg 19 (by decide), hg 20 (by decide),
      hg 21 (by decide)]
  have e22 : readU32 bs1 22 = readU32 bs2 22 := by
    unfold readU32
    rw [hg 22 (by decide), hg 23 (by decide), hg 24 (by decide),
      hg 25 (by decide)]
  have e10 : readU32 bs1 10 = readU32 bs2 10 := by
    unfold readU32
    rw [hg 10 (by decide), hg 11 (by decide), hg 12 (by decide),
      hg 13 (by decide)]
  have e34 : readU32 bs1 34 = readU32 bs2 34 := by
    unfold readU32
    rw [hg 34 (by decide), hg 35 (by decide), hg 36 (by decide),
      hg 37 (by decide)]
  have hdata : (bs1.drop (readU32 bs1 10)).take (readU32 bs1 34)
      = (bs2.drop (readU32 bs2 10)).take (readU32 bs2 34) := by
    rw [← e10, ← e34]
    apply List.ext_getElem?
    intro n
    rw [List.getElem?_take, List.getElem?_take]
    split
    · rw [List.getElem?_drop, List.getElem?_drop]
      apply hq
      intro hd
      unfold deadHeaderByte at hd
      omega
    · rfl
  simp only [decode]
  rw [hdata, hlen, e0, e1, e16, e30, e18, e22, e10, e34]

/-- C9 amended, witness: two well-formed 57-byte inputs differing only in the
ignored reserved byte 6 decode identically. -/
theorem decode_ignores_dead_header_bytes_witness :
    decode plainInputA = decode plainInputB :=
  decode_ignores_dead_header_bytes plainInputA plainInputB (by decide)
    (by decide) (by decide)
